import Mathlib

/-!
Verification development for the search-space core of the Ax repository
(`ax/core/search_space.py` and its collaborators).  The repository snapshot
contains only the test suite for this module (`ax/core/tests/test_search_space.py`),
so the executable definitions below are modelled from the specification's
description of the module, with behaviour pinned by the assertions of that
test file wherever the two overlap.

Parameter values are modelled with rationals standing in for Python floats
(no floating-point behaviour is relevant to the properties checked here),
and Python dictionaries are modelled as association lists whose equality,
where it matters, is stated through lookups (Python dict equality is
order-insensitive).
-/

/-- A rational literal given by numerator and denominator, written through
the constructor so that it evaluates inside `decide` (the library's division
on `ℚ` is irreducible). -/
def qq (n : ℤ) (d : ℕ) (h1 : d ≠ 0 := by decide)
    (h2 : n.natAbs.Coprime d := by decide) : ℚ :=
  ⟨n, d, h1, h2⟩

/-- Exact rational multiplication via `mkRat` (kernel-reducible, unlike the
library's irreducible `Rat.mul`; the two agree on all inputs). -/
def qmul (a b : ℚ) : ℚ := mkRat (a.num * b.num) (a.den * b.den)

/-- Exact rational addition via `mkRat`. -/
def qadd (a b : ℚ) : ℚ := mkRat (a.num * b.den + b.num * a.den) (a.den * b.den)

/-- Round a rational to the nearest integer (halves up), as an explicit
floor of `(2q+1)/2` so that it evaluates inside `decide`. -/
def qround (a : ℚ) : ℤ := (2 * a.num + a.den).fdiv (2 * a.den)

/-- Modelled from the spec: a parameter value as carried by arms and
observation features.  Python values are floats, ints, strings, booleans, or
the explicit `None` sentinel used by `out_of_design_arm`. -/
inductive PValue where
  | float (q : ℚ)
  | int (n : ℤ)
  | str (s : String)
  | bool (b : Bool)
  | null
deriving DecidableEq

/-- Modelled from the spec: `ParameterType` with the four supported kinds. -/
inductive ParameterType where
  | FLOAT
  | INT
  | STRING
  | BOOL
deriving DecidableEq

/-- Modelled from the spec: the three parameter classes (range / choice /
fixed), collapsed into one kind tag on a single parameter record. -/
inductive ParamKind where
  | range
  | choice
  | fixed
deriving DecidableEq

/-- Modelled from the spec: a parameter of the search space.  `dependents`
maps a value of this parameter to the names of the parameters that exist only
when this parameter takes that value (empty for non-hierarchical
parameters). -/
structure Parameter where
  name : String
  ptype : ParameterType
  kind : ParamKind
  lower : ℚ
  upper : ℚ
  log_scale : Bool
  choice_values : List PValue
  fixed_value : Option PValue
  dependents : List (PValue × List String)
deriving DecidableEq

/-- A name-to-value mapping (a Python `TParameterization` dict). -/
abbrev Pmap := List (String × PValue)

/-- Lookup in an association list keyed by strings (first match wins, which
agrees with dict semantics because dict-derived maps have unique keys). -/
def alookup {α : Type} : List (String × α) → String → Option α
  | [], _ => none
  | kv :: rest, k => if kv.1 = k then some kv.2 else alookup rest k

/-- Find the parameter with a given name in a parameter list. -/
def findParam : List Parameter → String → Option Parameter
  | [], _ => none
  | p :: rest, n => if p.name = n then some p else findParam rest n

/-- Modelled from the spec: whether a parameter is numeric. -/
def Parameter.isNumeric (p : Parameter) : Bool :=
  p.ptype = ParameterType.FLOAT ∨ p.ptype = ParameterType.INT

/-- Modelled from the spec: whether a value has the correct type for a
parameter (what `check_types` checks per value). -/
def typeOk (t : ParameterType) (v : PValue) : Bool :=
  match t, v with
  | ParameterType.FLOAT, PValue.float _ => true
  | ParameterType.INT, PValue.int _ => true
  | ParameterType.STRING, PValue.str _ => true
  | ParameterType.BOOL, PValue.bool _ => true
  | _, _ => false

/-- Modelled from the spec: a parameter's own validity check — correct type
plus domain membership (bounds for range parameters, the value set for choice
parameters, the fixed value for fixed parameters). -/
def Parameter.validate (p : Parameter) (v : PValue) : Bool :=
  match p.kind with
  | ParamKind.range =>
      match p.ptype, v with
      | ParameterType.FLOAT, PValue.float q => decide (p.lower ≤ q ∧ q ≤ p.upper)
      | ParameterType.INT, PValue.int n => decide (p.lower ≤ (n : ℚ) ∧ (n : ℚ) ≤ p.upper)
      | _, _ => false
  | ParamKind.choice => decide (v ∈ p.choice_values)
  | ParamKind.fixed => decide (p.fixed_value = some v)

/-- Modelled from the spec: a parameter's canonical cast — numeric int
parameters round float-valued inputs to integers, float parameters widen
integer inputs; everything else is returned unchanged. -/
def Parameter.cast (p : Parameter) (v : PValue) : PValue :=
  match p.ptype, v with
  | ParameterType.INT, PValue.float q => PValue.int (qround q)
  | ParameterType.FLOAT, PValue.int n => PValue.float (n : ℚ)
  | _, _ => v

/-- Modelled from the spec: a parameter constraint — a coefficient mapping
plus a bound, read as `weighted sum ≤ bound`.  The sugar constraints
(order/sum) additionally carry the parameter objects they were built from in
`cparams`; search-space validation requires those to be structurally equal to
the stored parameters. -/
structure ParameterConstraint where
  constraint_dict : List (String × ℚ)
  bound : ℚ
  cparams : List Parameter
deriving DecidableEq

/-- Numeric reading of a value for constraint evaluation (Python treats
booleans as 0/1; strings and the unset sentinel have no numeric reading). -/
def toRatOpt : PValue → Option ℚ
  | PValue.float q => some q
  | PValue.int n => some (n : ℚ)
  | PValue.bool b => some (if b then 1 else 0)
  | PValue.str _ => none
  | PValue.null => none

/-- Weighted sum of a constraint's coefficient mapping over an assignment;
`none` when a referenced name is absent or non-numeric. -/
def weightedSum (cd : List (String × ℚ)) (vals : Pmap) : Option ℚ :=
  match cd with
  | [] => some 0
  | kc :: rest =>
      match weightedSum rest vals with
      | none => none
      | some s =>
          match alookup vals kc.1 with
          | none => none
          | some v =>
              match toRatOpt v with
              | none => none
              | some q => some (qadd s (qmul kc.2 q))

/-- Modelled from the spec: `ParameterConstraint.check` — whether the
weighted sum respects the bound (`none` when the sum is undefined). -/
def ParameterConstraint.check (c : ParameterConstraint) (vals : Pmap) : Option Bool :=
  match weightedSum c.constraint_dict vals with
  | none => none
  | some s => some (decide (s ≤ c.bound))

/-- Modelled from the spec: an arm is a name-to-value mapping. -/
structure Arm where
  parameters : Pmap
deriving DecidableEq

/-- Modelled from the spec: a search space owns an ordered parameter
collection and a list of parameter constraints. -/
structure SearchSpace where
  parameters : List Parameter
  parameter_constraints : List ParameterConstraint
deriving DecidableEq

/-- Per-entry behaviour of `cast_arm`: the canonical cast of the space's
parameter of that name when the name is declared, the value unchanged
otherwise. -/
def castValue (ss : SearchSpace) (k : String) (v : PValue) : PValue :=
  match findParam ss.parameters k with
  | some p => p.cast v
  | none => v

/-- Modelled from the spec: `cast_arm` — replace the value of every name
present in both the arm and the space with that parameter's canonical cast;
names unknown to the space pass through unchanged.  Returns a new arm. -/
def SearchSpace.cast_arm (ss : SearchSpace) (arm : Arm) : Arm :=
  Arm.mk (arm.parameters.map fun kv => (kv.1, castValue ss kv.1 kv.2))

/-- Modelled from the spec: `out_of_design_arm` — every declared parameter
name mapped to the explicit unset sentinel. -/
def SearchSpace.out_of_design_arm (ss : SearchSpace) : Arm :=
  Arm.mk (ss.parameters.map fun p => (p.name, PValue.null))

/-- Modelled from the spec: `check_membership` in boolean mode — the supplied
mapping must be exactly as large as the declared collection, every supplied
value must belong to a declared parameter and pass its validity check, and
every constraint must hold. -/
def SearchSpace.check_membership (ss : SearchSpace) (vals : Pmap) : Bool :=
  decide (vals.length = ss.parameters.length)
  && vals.all (fun kv =>
      match findParam ss.parameters kv.1 with
      | some p => p.validate kv.2
      | none => false)
  && ss.parameter_constraints.all (fun c => c.check vals = some true)

/-- Modelled from the spec: `check_types` in boolean mode — only per-value
type validity is checked, with unknown keys a violation; bounds and
constraints are ignored. -/
def SearchSpace.check_types (ss : SearchSpace) (vals : Pmap) : Bool :=
  vals.all fun kv =>
    match findParam ss.parameters kv.1 with
    | some p => typeOk p.ptype kv.2
    | none => false

/-- Errors surfaced by the raising modes of the membership/type checks,
distinguishing missing from unknown parameters and reporting domain
violations before constraint violations. -/
inductive MembershipError where
  | missingParameter (n : String)
  | unknownParameter (n : String)
  | outOfDomain (n : String)
  | constraintViolated
deriving DecidableEq

/-- Modelled from the spec: `check_membership(…, raise_error=True)` — raises
on the first violation, reporting missing parameters, unknown parameters and
domain violations before constraint violations. -/
def SearchSpace.check_membership_raising (ss : SearchSpace) (vals : Pmap) :
    Except MembershipError Unit :=
  match ss.parameters.find? (fun p => (alookup vals p.name).isNone) with
  | some p => Except.error (MembershipError.missingParameter p.name)
  | none =>
      match vals.find? (fun kv => (findParam ss.parameters kv.1).isNone) with
      | some kv => Except.error (MembershipError.unknownParameter kv.1)
      | none =>
          match vals.find? (fun kv =>
              match findParam ss.parameters kv.1 with
              | some p => !p.validate kv.2
              | none => false) with
          | some kv => Except.error (MembershipError.outOfDomain kv.1)
          | none =>
              match ss.parameter_constraints.find? (fun c => !(c.check vals = some true)) with
              | some _ => Except.error MembershipError.constraintViolated
              | none => Except.ok ()

/-- Modelled from the spec: `check_types(…, raise_error=True)`. -/
def SearchSpace.check_types_raising (ss : SearchSpace) (vals : Pmap) :
    Except MembershipError Unit :=
  match vals.find? (fun kv => (findParam ss.parameters kv.1).isNone) with
  | some kv => Except.error (MembershipError.unknownParameter kv.1)
  | none =>
      match vals.find? (fun kv =>
          match findParam ss.parameters kv.1 with
          | some p => !typeOk p.ptype kv.2
          | none => false) with
      | some kv => Except.error (MembershipError.outOfDomain kv.1)
      | none => Except.ok ()

/-- Modelled from the spec: whether a single name referenced by a constraint
is acceptable — it must be declared, numeric, not log-scale and not a choice
parameter. -/
def validParamForConstraint (ps : List Parameter) (n : String) : Bool :=
  match findParam ps n with
  | none => false
  | some p => p.isNumeric && !p.log_scale && !(p.kind = ParamKind.choice)

/-- Modelled from the spec: full validation of one constraint against a
parameter list — every referenced name passes `validParamForConstraint`, and
every parameter object carried by a sugar constraint is structurally equal to
the stored parameter of the same name. -/
def validConstraint (ps : List Parameter) (c : ParameterConstraint) : Bool :=
  c.constraint_dict.all (fun kc => validParamForConstraint ps kc.1)
  && c.cparams.all (fun q => findParam ps q.name = some q)

/-- Modelled from the spec: search-space construction — fails on a duplicate
parameter name or on any constraint failing validation. -/
def SearchSpace.construct (ps : List Parameter) (cs : List ParameterConstraint) :
    Except String SearchSpace :=
  if (ps.map Parameter.name).Nodup then
    if cs.all (validConstraint ps) then Except.ok (SearchSpace.mk ps cs)
    else Except.error "invalid parameter constraint"
  else Except.error "duplicate parameter name"

/-- Modelled from the spec: `add_parameter` — fails if the name is already
present; otherwise appends the parameter. -/
def SearchSpace.add_parameter (ss : SearchSpace) (p : Parameter) :
    Except String SearchSpace :=
  if (findParam ss.parameters p.name).isSome then
    Except.error "parameter already exists in search space"
  else Except.ok (SearchSpace.mk (ss.parameters ++ [p]) ss.parameter_constraints)

/-- Modelled from the spec: `update_parameter` — fails if the name is absent
or the new parameter's type differs from the stored one; otherwise replaces
the stored parameter in place. -/
def SearchSpace.update_parameter (ss : SearchSpace) (p : Parameter) :
    Except String SearchSpace :=
  match findParam ss.parameters p.name with
  | none => Except.error "parameter does not exist in search space"
  | some stored =>
      if stored.ptype = p.ptype then
        Except.ok (SearchSpace.mk
          (ss.parameters.map fun q => if q.name = p.name then p else q)
          ss.parameter_constraints)
      else Except.error "parameter type change is disallowed"

/-- Whether an `Except` computation failed. -/
def isErr {ε α : Type} : Except ε α → Bool
  | Except.error _ => true
  | Except.ok _ => false

/-- Modelled from the spec: the dependent names activated by a parameter when
it takes value `v` (the branch of the dependency tree selected by `v`). -/
def depsFor (p : Parameter) (v : PValue) : List String :=
  (p.dependents.filter fun dv => decide (dv.1 = v)).flatMap Prod.snd

/-- All dependent names a parameter declares, across all of its values (used
by tree validation, which walks the entire tree). -/
def allDepNames (p : Parameter) : List String :=
  p.dependents.flatMap Prod.snd

/-- Modelled from the spec: the root-to-leaf walk of `_cast_arm` collecting
the active parameter names.  `findActive fuel ps params ns` visits the names
in `ns` in order; at each name it requires the parameter to exist and the arm
to carry a value for it (else the runtime casting error, modelled as `none`),
follows the branch selected by that value, and returns the names visited.
`fuel` strictly decreases on every recursive call so the function is
structurally recursive; the fuel chosen by callers is large enough for every
well-formed tree, and exhaustion (possible only on cyclic dependent
structures, on which the Python code would not terminate) is an error. -/
def findActive : Nat → List Parameter → Pmap → List String → Option (List String)
  | _, _, _, [] => some []
  | 0, _, _, _ :: _ => none
  | Nat.succ fuel, ps, params, n :: rest =>
      match findParam ps n with
      | none => none
      | some p =>
          match alookup params n with
          | none => none
          | some v =>
              match findActive fuel ps params (depsFor p v) with
              | none => none
              | some sub =>
                  match findActive fuel ps params rest with
                  | none => none
                  | some restAct => some (n :: (sub ++ restAct))

/-- Fuel that dominates the size of any walk of a well-formed dependency
tree over `ps` (each visited name consumes one unit, and sibling traversal
consumes at most one unit per visited name as well). -/
def hssFuel (ps : List Parameter) : Nat :=
  ps.length * ps.length + ps.length + 1

/-- Errors of hierarchical-search-space construction, mirroring the distinct
failures the test suite asserts on. -/
inductive HSSError where
  | couldNotFindRoot
  | notPartOfSearchSpace (n : String)
  | sharedParameters
  | unreachableParameters
  | outOfFuel
deriving DecidableEq

/-- Modelled from the spec: a hierarchical search space — a search space
plus the name of the root of its dependency tree. -/
structure HierarchicalSearchSpace where
  parameters : List Parameter
  parameter_constraints : List ParameterConstraint
  root : String
deriving DecidableEq

/-- Modelled from the spec: `_cast_parameterization` — walk the tree from
the root following the arm's values, then keep exactly the entries of the arm
whose names were visited (the active subset), in the arm's own order.
`none` models the runtime casting error raised when a parameter the walk
determines to be active is absent from the arm. -/
def castParameterization (hss : HierarchicalSearchSpace) (params : Pmap) :
    Option Pmap :=
  match findActive (hssFuel hss.parameters) hss.parameters params [hss.root] with
  | none => none
  | some acts => some (params.filter fun kv => decide (kv.1 ∈ acts))

/-- Modelled from the spec: `_cast_arm` — `_cast_parameterization` applied to
an arm's mapping. -/
def HierarchicalSearchSpace.cast_arm (hss : HierarchicalSearchSpace) (arm : Arm) :
    Option Arm :=
  match castParameterization hss arm.parameters with
  | none => none
  | some p => some (Arm.mk p)

/-- The reserved metadata key under which the full pre-cast parameterization
is stashed (`Keys.FULL_PARAMETERIZATION`). -/
def fullParameterizationKey : String := "full_parameterization"

/-- Modelled from the spec: observation features — a name-to-value mapping,
an optional metadata side-mapping (whose values, for the purposes of this
module, are parameterizations stored under the reserved key), and the
remaining payload of the observation features, which the cast/flatten
operations must not touch, represented here by the trial index. -/
structure ObservationFeatures where
  parameters : Pmap
  metadata : Option (List (String × Pmap))
  trial_index : Option Nat
deriving DecidableEq

/-- Modelled from the spec: `ObservationFeatures.from_arm` — features carrying
the arm's mapping and nothing else. -/
def ObservationFeatures.from_arm (arm : Arm) : ObservationFeatures :=
  ObservationFeatures.mk arm.parameters none none

/-- Stash a full parameterization into a metadata mapping under the reserved
key, unless the key is already present (an existing saved full
parameterization is never overwritten). -/
def stashFull (m : List (String × Pmap)) (full : Pmap) : List (String × Pmap) :=
  match alookup m fullParameterizationKey with
  | some _ => m
  | none => (fullParameterizationKey, full) :: m

/-- Modelled from the spec: `cast_observation_features` — cast the features'
mapping to the active subtree and store the original, uncast full mapping in
the metadata under the reserved key unless that key is already present.
Returns a new object; only the parameters and the metadata change. -/
def cast_observation_features (hss : HierarchicalSearchSpace)
    (obs : ObservationFeatures) : Option ObservationFeatures :=
  match castParameterization hss obs.parameters with
  | none => none
  | some newP =>
      some (ObservationFeatures.mk newP
        (some (stashFull (obs.metadata.getD []) obs.parameters))
        obs.trial_index)

/-- Modelled from the spec and pinned by the tests: `flatten_observation_features`
— when the metadata carries a saved full parameterization the features'
mapping becomes that saved mapping; otherwise the features pass through
unchanged.  The test suite (`test_flatten_observation_features`) asserts that
the flattened features still carry the full parameterization in their
metadata, so the reserved key is retained, not cleared. -/
def flatten_observation_features (obs : ObservationFeatures) :
    ObservationFeatures :=
  match obs.metadata with
  | none => obs
  | some m =>
      match alookup m fullParameterizationKey with
      | none => obs
      | some full => ObservationFeatures.mk full obs.metadata obs.trial_index

/-- Modelled from the spec: the root candidates of a parameter list — the
names that appear in no parameter's dependents lists. -/
def rootCandidates (ps : List Parameter) : List String :=
  let allDeps := ps.flatMap allDepNames
  (ps.map Parameter.name).filter fun n => decide (n ∉ allDeps)

/-- Modelled from the spec: the validation walk of the dependency tree.
`checkSubtrees fuel ps ns` visits each name in `ns`: the name must be a
declared parameter (else the "not part of the search space" failure); its
child subtrees, across all of its values, are visited recursively and their
visited names must be pairwise disjoint (else the "contain the same
parameters" failure).  Returns the list of visited names.  Fuel decreases on
every call, exactly as in `findActive`. -/
def checkSubtrees : Nat → List Parameter → List String → Except HSSError (List String)
  | _, _, [] => Except.ok []
  | 0, _, _ :: _ => Except.error HSSError.outOfFuel
  | Nat.succ fuel, ps, n :: rest =>
      match findParam ps n with
      | none => Except.error (HSSError.notPartOfSearchSpace n)
      | some p =>
          match checkSubtrees fuel ps (allDepNames p) with
          | Except.error e => Except.error e
          | Except.ok sub =>
              if sub.Nodup then
                match checkSubtrees fuel ps rest with
                | Except.error e => Except.error e
                | Except.ok restV => Except.ok (n :: (sub ++ restV))
              else Except.error HSSError.sharedParameters

/-- Modelled from the spec: hierarchical-search-space construction — root
detection (exactly one candidate, else the "could not find the root"
failure), then the validation walk from the root, then the requirement that
the walk reaches every declared parameter. -/
def HierarchicalSearchSpace.construct (ps : List Parameter)
    (cs : List ParameterConstraint) : Except HSSError HierarchicalSearchSpace :=
  match rootCandidates ps with
  | [r] =>
      match checkSubtrees (hssFuel ps) ps [r] with
      | Except.error e => Except.error e
      | Except.ok visited =>
          if (ps.map Parameter.name).all (fun n => decide (n ∈ visited)) then
            Except.ok (HierarchicalSearchSpace.mk ps cs r)
          else Except.error HSSError.unreachableParameters
  | _ => Except.error HSSError.couldNotFindRoot

/-- A range parameter with the given bounds (non-hierarchical). -/
def rangeParam (n : String) (t : ParameterType) (lo hi : ℚ) : Parameter :=
  Parameter.mk n t ParamKind.range lo hi false [] none []

/-- A log-scale range parameter with the given bounds. -/
def logRangeParam (n : String) (t : ParameterType) (lo hi : ℚ) : Parameter :=
  Parameter.mk n t ParamKind.range lo hi true [] none []

/-- A choice parameter over the given values. -/
def choiceParam (n : String) (t : ParameterType) (vs : List PValue) : Parameter :=
  Parameter.mk n t ParamKind.choice 0 0 false vs none []

/-- A choice parameter with a dependents mapping (hierarchical). -/
def choiceParamDeps (n : String) (t : ParameterType) (vs : List PValue)
    (deps : List (PValue × List String)) : Parameter :=
  Parameter.mk n t ParamKind.choice 0 0 false vs none deps

/-- A fixed parameter with the given value. -/
def fixedParam (n : String) (t : ParameterType) (v : PValue) : Parameter :=
  Parameter.mk n t ParamKind.fixed 0 0 false [] (some v) []

/-- The parameter `a` of the test search spaces: float range `[0.5, 5.5]`. -/
def paramA : Parameter := rangeParam "a" ParameterType.FLOAT (qq 1 2) (qq 11 2)

/-- The parameter `b`: int range `[2, 10]`. -/
def paramB : Parameter := rangeParam "b" ParameterType.INT 2 10

/-- The parameter `c`: string choice over foo/bar/baz. -/
def paramC : Parameter :=
  choiceParam "c" ParameterType.STRING
    [PValue.str "foo", PValue.str "bar", PValue.str "baz"]

/-- The parameter `d`: fixed boolean `true`. -/
def paramD : Parameter := fixedParam "d" ParameterType.BOOL (PValue.bool true)

/-- The parameter `e`: float choice over 0.0/0.1/0.2/0.5. -/
def paramE : Parameter :=
  choiceParam "e" ParameterType.FLOAT
    [PValue.float 0, PValue.float (qq 1 10), PValue.float (qq 1 5), PValue.float (qq 1 2)]

/-- The parameter `f`: log-scale int range `[2, 10]`. -/
def paramF : Parameter := logRangeParam "f" ParameterType.INT 2 10

/-- The parameter `g`: float range `[0, 1]`, not part of the base spaces. -/
def paramG : Parameter := rangeParam "g" ParameterType.FLOAT 0 1

/-- The base parameter list of the flat-search-space tests. -/
def baseParams : List Parameter := [paramA, paramB, paramC, paramD, paramE, paramF]

/-- The order constraint `a <= b` as carried by the test space `ss2`. -/
def orderConstraintAB : ParameterConstraint :=
  ParameterConstraint.mk [("a", 1), ("b", -1)] 0 [paramA, paramB]

/-- The test search space without constraints. -/
def ss1 : SearchSpace := SearchSpace.mk baseParams []

/-- The test search space with the order constraint `a <= b`. -/
def ss2 : SearchSpace := SearchSpace.mk baseParams [orderConstraintAB]

/-- The in-design assignment used by the membership/type tests. -/
def pDictGood : Pmap :=
  [("a", PValue.float 1), ("b", PValue.int 5), ("c", PValue.str "foo"),
   ("d", PValue.bool true), ("e", PValue.float (qq 1 5)), ("f", PValue.int 5)]

/-- The `model` parameter of the hierarchical test space: string choice
between Linear and XGBoost, activating the branch-specific parameters. -/
def modelParam : Parameter :=
  choiceParamDeps "model" ParameterType.STRING
    [PValue.str "Linear", PValue.str "XGBoost"]
    [(PValue.str "Linear", ["learning_rate", "l2_reg_weight"]),
     (PValue.str "XGBoost", ["num_boost_rounds"])]

/-- The `model_2` parameter: a second independent root candidate used by the
validation tests. -/
def model2Param : Parameter :=
  choiceParamDeps "model_2" ParameterType.STRING
    [PValue.str "Linear", PValue.str "XGBoost"]
    [(PValue.str "Linear", ["learning_rate", "l2_reg_weight"]),
     (PValue.str "XGBoost", ["num_boost_rounds"])]

/-- The `learning_rate` parameter (float range; bounds immaterial to the
casting behaviour under test). -/
def lrParam : Parameter := rangeParam "learning_rate" ParameterType.FLOAT 0 1

/-- The `l2_reg_weight` parameter. -/
def l2Param : Parameter := rangeParam "l2_reg_weight" ParameterType.FLOAT 0 1

/-- The `num_boost_rounds` parameter. -/
def nbrParam : Parameter := rangeParam "num_boost_rounds" ParameterType.INT 0 100

/-- The parameter list of the hierarchical test space `hss_1`. -/
def hss1Params : List Parameter := [modelParam, lrParam, l2Param, nbrParam]

/-- The hierarchical test space `hss_1`, rooted at `model`. -/
def hss1 : HierarchicalSearchSpace :=
  HierarchicalSearchSpace.mk hss1Params [] "model"

/-- The flat arm selecting the Linear branch. -/
def arm1flatP : Pmap :=
  [("model", PValue.str "Linear"), ("learning_rate", PValue.float (qq 1 100)),
   ("l2_reg_weight", PValue.float (qq 1 10000)), ("num_boost_rounds", PValue.int 12)]

/-- The cast of the Linear-branch arm: only the active subtree remains. -/
def arm1castP : Pmap :=
  [("model", PValue.str "Linear"), ("learning_rate", PValue.float (qq 1 100)),
   ("l2_reg_weight", PValue.float (qq 1 10000))]

/-- The flat arm selecting the XGBoost branch. -/
def arm2flatP : Pmap :=
  [("model", PValue.str "XGBoost"), ("learning_rate", PValue.float (qq 1 100)),
   ("l2_reg_weight", PValue.float (qq 1 10000)), ("num_boost_rounds", PValue.int 12)]

/-- The cast of the XGBoost-branch arm. -/
def arm2castP : Pmap :=
  [("model", PValue.str "XGBoost"), ("num_boost_rounds", PValue.int 12)]

/-- The under-specified arm: Linear branch selected but `learning_rate`
absent, so the walk hits an active parameter with no value. -/
def armMissingP : Pmap :=
  [("model", PValue.str "Linear"), ("l2_reg_weight", PValue.float (qq 1 10000)),
   ("num_boost_rounds", PValue.int 12)]


theorem alookup_filter {α : Type} (l : List (String × α)) (f : String → Bool)
    (k : String) :
    alookup (l.filter fun kv => f kv.1) k = if f k then alookup l k else none := by
  induction l with
  | nil => by_cases h : f k <;> simp [alookup, h]
  | cons kv rest ih =>
      by_cases hf : f kv.1
      · by_cases hk : kv.1 = k
        · simp [List.filter, hf, alookup, hk, hk ▸ hf]
        · simp [List.filter, hf, alookup, hk, ih]
      · by_cases hk : kv.1 = k
        · simp [List.filter, hf, alookup, hk, ih, hk ▸ hf]
        · simp [List.filter, hf, alookup, hk, ih]

theorem alookup_map_val {α β : Type} (l : List (String × α)) (g : String → α → β)
    (k : String) :
    alookup (l.map fun kv => (kv.1, g kv.1 kv.2)) k = (alookup l k).map (g k) := by
  induction l with
  | nil => simp [alookup]
  | cons kv rest ih =>
      by_cases hk : kv.1 = k
      · subst hk; simp [alookup, ih]
      · simp [alookup, hk, ih]

theorem alookup_isSome_iff {α : Type} (l : List (String × α)) (k : String) :
    (alookup l k).isSome ↔ k ∈ l.map Prod.fst := by
  induction l with
  | nil => simp [alookup]
  | cons kv rest ih =>
      by_cases hk : kv.1 = k
      · subst hk; simp [alookup]
      · simp [alookup, hk, ih, Ne.symm hk]

theorem alookup_eq_some_mem {α : Type} {l : List (String × α)} {k : String} {v : α}
    (h : alookup l k = some v) : (k, v) ∈ l := by
  induction l with
  | nil => simp [alookup] at h
  | cons kv rest ih =>
      by_cases hk : kv.1 = k
      · subst hk
        simp [alookup] at h
        subst h
        exact List.mem_cons_self _ _
      · simp [alookup, hk] at h
        exact List.mem_cons_of_mem _ (ih h)

theorem mem_alookup {α : Type} {l : List (String × α)}
    (hnd : (l.map Prod.fst).Nodup) {k : String} {v : α} (h : (k, v) ∈ l) :
    alookup l k = some v := by
  induction l with
  | nil => simp at h
  | cons kv rest ih =>
      simp only [List.map_cons, List.nodup_cons] at hnd
      rcases List.mem_cons.mp h with h1 | h2
      · subst h1; simp [alookup]
      · have hk : kv.1 ≠ k := by
          intro he
          exact hnd.1 (he ▸ (List.mem_map.mpr ⟨(k, v), h2, rfl⟩))
        simp [alookup, hk, ih hnd.2 h2]

theorem findParam_eq_some {ps : List Parameter} {n : String} {p : Parameter}
    (h : findParam ps n = some p) : p ∈ ps ∧ p.name = n := by
  induction ps with
  | nil => simp [findParam] at h
  | cons q rest ih =>
      by_cases hq : q.name = n
      · simp [findParam, hq] at h
        subst h
        exact ⟨List.mem_cons_self _ _, hq⟩
      · simp [findParam, hq] at h
        exact ⟨List.mem_cons_of_mem _ (ih h).1, (ih h).2⟩

theorem findParam_isSome_iff (ps : List Parameter) (n : String) :
    (findParam ps n).isSome ↔ n ∈ ps.map Parameter.name := by
  induction ps with
  | nil => simp [findParam]
  | cons q rest ih =>
      by_cases hq : q.name = n
      · subst hq; simp [findParam]
      · simp [findParam, hq, ih, Ne.symm hq]

theorem findParam_of_mem {ps : List Parameter}
    (hnd : (ps.map Parameter.name).Nodup) {p : Parameter} (h : p ∈ ps) :
    findParam ps p.name = some p := by
  induction ps with
  | nil => simp at h
  | cons q rest ih =>
      simp only [List.map_cons, List.nodup_cons] at hnd
      rcases List.mem_cons.mp h with h1 | h2
      · subst h1; simp [findParam]
      · have hq : q.name ≠ p.name := by
          intro he
          exact hnd.1 (he ▸ (List.mem_map.mpr ⟨p, h2, rfl⟩))
        simp [findParam, hq, ih hnd.2 h2]

theorem cast_idem (p : Parameter) (v : PValue) : p.cast (p.cast v) = p.cast v := by
  cases hp : p.ptype <;> cases v <;> simp [Parameter.cast, hp]

theorem filter_idem {α : Type} (f : α → Bool) (l : List α) :
    (l.filter f).filter f = l.filter f := by
  induction l with
  | nil => rfl
  | cons a rest ih =>
      by_cases ha : f a
      · simp [List.filter, ha, ih]
      · simp [List.filter, ha, ih]

theorem findActive_nil (fuel : Nat) (ps : List Parameter) (params : Pmap) :
    findActive fuel ps params [] = some [] := by
  cases fuel <;> rfl

theorem findActive_succ (fuel : Nat) (ps : List Parameter) (params : Pmap)
    (n : String) (rest : List String) :
    findActive (fuel + 1) ps params (n :: rest) =
      match findParam ps n with
      | none => none
      | some p =>
          match alookup params n with
          | none => none
          | some v =>
              match findActive fuel ps params (depsFor p v) with
              | none => none
              | some sub =>
                  match findActive fuel ps params rest with
                  | none => none
                  | some restAct => some (n :: (sub ++ restAct)) := rfl

theorem findActive_mem_isSome (fuel : Nat) :
    ∀ (ns : List String) (ps : List Parameter) (params : Pmap) (acts : List String),
      findActive fuel ps params ns = some acts →
      ∀ m ∈ acts, (alookup params m).isSome := by
  induction fuel with
  | zero =>
      intro ns ps params acts h m hm
      cases ns with
      | nil =>
          rw [findActive_nil] at h
          cases h
          simp at hm
      | cons n rest => exact absurd h (by simp [findActive])
  | succ fuel ih =>
      intro ns ps params acts h m hm
      cases ns with
      | nil =>
          rw [findActive_nil] at h
          cases h
          simp at hm
      | cons n rest =>
          rw [findActive_succ] at h
          cases hp : findParam ps n with
          | none => simp [hp] at h
          | some p =>
              simp only [hp] at h
              cases hv : alookup params n with
              | none => simp [hv] at h
              | some v =>
                  simp only [hv] at h
                  cases hs : findActive fuel ps params (depsFor p v) with
                  | none => simp [hs] at h
                  | some sub =>
                      simp only [hs] at h
                      cases hr : findActive fuel ps params rest with
                      | none => simp [hr] at h
                      | some restAct =>
                          simp only [hr, Option.some_inj] at h
                          subst h
                          rcases List.mem_cons.mp hm with h1 | h2
                          · subst h1; simp [hv]
                          · rcases List.mem_append.mp h2 with h3 | h4
                            · exact ih _ ps params sub hs m h3
                            · exact ih _ ps params restAct hr m h4

theorem findActive_agree (fuel : Nat) :
    ∀ (ns : List String) (ps : List Parameter) (params params2 : Pmap)
      (acts : List String),
      findActive fuel ps params ns = some acts →
      (∀ m ∈ acts, alookup params2 m = alookup params m) →
      findActive fuel ps params2 ns = some acts := by
  induction fuel with
  | zero =>
      intro ns ps params params2 acts h hag
      cases ns with
      | nil => rw [findActive_nil] at h ⊢; exact h
      | cons n rest => exact absurd h (by simp [findActive])
  | succ fuel ih =>
      intro ns ps params params2 acts h hag
      cases ns with
      | nil => rw [findActive_nil] at h ⊢; exact h
      | cons n rest =>
          rw [findActive_succ] at h ⊢
          cases hp : findParam ps n with
          | none => simp [hp] at h
          | some p =>
              simp only [hp] at h ⊢
              cases hv : alookup params n with
              | none => simp [hv] at h
              | some v =>
                  simp only [hv] at h
                  cases hs : findActive fuel ps params (depsFor p v) with
                  | none => simp [hs] at h
                  | some sub =>
                      simp only [hs] at h
                      cases hr : findActive fuel ps params rest with
                      | none => simp [hr] at h
                      | some restAct =>
                          simp only [hr, Option.some_inj] at h
                          subst h
                          have hn : alookup params2 n = some v := by
                            rw [hag n (List.mem_cons_self _ _), hv]
                          have hsub : findActive fuel ps params2 (depsFor p v) = some sub := by
                            refine ih _ ps params params2 sub hs ?_
                            intro m hm
                            exact hag m (List.mem_cons_of_mem _ (List.mem_append.mpr (Or.inl hm)))
                          have hrest : findActive fuel ps params2 rest = some restAct := by
                            refine ih _ ps params params2 restAct hr ?_
                            intro m hm
                            exact hag m (List.mem_cons_of_mem _ (List.mem_append.mpr (Or.inr hm)))
                          simp only [hn, hsub, hrest]

theorem castValue_idem (ss : SearchSpace) (k : String) (v : PValue) :
    castValue ss k (castValue ss k v) = castValue ss k v := by
  unfold castValue
  cases findParam ss.parameters k with
  | none => rfl
  | some p => simp [cast_idem]

theorem cast_arm_lookup (ss : SearchSpace) (arm : Arm) (k : String) :
    alookup (ss.cast_arm arm).parameters k =
      (alookup arm.parameters k).map (castValue ss k) := by
  unfold SearchSpace.cast_arm
  exact alookup_map_val arm.parameters (castValue ss) k

theorem castParameterization_fixed (hss : HierarchicalSearchSpace)
    (params r : Pmap) (h : castParameterization hss params = some r) :
    castParameterization hss r = some r := by
  unfold castParameterization at h ⊢
  cases ha : findActive (hssFuel hss.parameters) hss.parameters params [hss.root] with
  | none => simp [ha] at h
  | some acts =>
      simp only [ha, Option.some_inj] at h
      subst h
      have hagree : ∀ m ∈ acts,
          alookup (params.filter fun kv => decide (kv.1 ∈ acts)) m =
            alookup params m := by
        intro m hm
        rw [alookup_filter params (fun x => decide (x ∈ acts)) m]
        simp [hm]
      have ha2 := findActive_agree (hssFuel hss.parameters) [hss.root]
        hss.parameters params _ acts ha hagree
      simp only [ha2]
      rw [filter_idem]

/-- The spec's wording of `check_membership`: every declared parameter name
is present with a value passing that parameter's own validity check, no
extra names are present, and every constraint's weighted sum respects its
bound. -/
def membershipSpec (ss : SearchSpace) (vals : Pmap) : Prop :=
  (∀ p ∈ ss.parameters, ∃ v, alookup vals p.name = some v ∧ p.validate v = true) ∧
  (∀ kv ∈ vals, (findParam ss.parameters kv.1).isSome) ∧
  (∀ c ∈ ss.parameter_constraints, c.check vals = some true)

/-- The spec's wording of `check_types`: each present value has the correct
type for its parameter, and unknown keys are violations. -/
def typesSpec (ss : SearchSpace) (vals : Pmap) : Prop :=
  ∀ kv ∈ vals, ∃ p, findParam ss.parameters kv.1 = some p ∧ typeOk p.ptype kv.2 = true

theorem nodup_subset_cover {K N : List String} (hK : K.Nodup) (hN : N.Nodup)
    (hlen : K.length = N.length) (hsub : ∀ k ∈ K, k ∈ N) : ∀ n ∈ N, n ∈ K := by
  intro n hn
  have hfin : K.toFinset ⊆ N.toFinset := by
    intro x hx
    exact List.mem_toFinset.mpr (hsub x (List.mem_toFinset.mp hx))
  have hcard : N.toFinset.card ≤ K.toFinset.card := by
    rw [List.toFinset_card_of_nodup hK, List.toFinset_card_of_nodup hN, hlen]
  have heq : K.toFinset = N.toFinset := Finset.eq_of_subset_of_card_le hfin hcard
  exact List.mem_toFinset.mp (heq ▸ List.mem_toFinset.mpr hn)

theorem nodup_bisubset_length {K N : List String} (hK : K.Nodup) (hN : N.Nodup)
    (h1 : ∀ k ∈ K, k ∈ N) (h2 : ∀ n ∈ N, n ∈ K) : K.length = N.length := by
  have heq : K.toFinset = N.toFinset := by
    apply Finset.Subset.antisymm
    · intro x hx
      exact List.mem_toFinset.mpr (h1 x (List.mem_toFinset.mp hx))
    · intro x hx
      exact List.mem_toFinset.mpr (h2 x (List.mem_toFinset.mp hx))
  rw [← List.toFinset_card_of_nodup hK, ← List.toFinset_card_of_nodup hN, heq]

theorem check_membership_iff (ss : SearchSpace) (vals : Pmap)
    (hks : (vals.map Prod.fst).Nodup)
    (hns : (ss.parameters.map Parameter.name).Nodup) :
    ss.check_membership vals = true ↔ membershipSpec ss vals := by
  unfold SearchSpace.check_membership membershipSpec
  rw [Bool.and_eq_true, Bool.and_eq_true, List.all_eq_true, List.all_eq_true,
    decide_eq_true_eq]
  constructor
  · rintro ⟨⟨hlen, hall⟩, hcons⟩
    have hknown : ∀ kv ∈ vals, (findParam ss.parameters kv.1).isSome := by
      intro kv hkv
      have hv := hall kv hkv
      cases hfp : findParam ss.parameters kv.1 with
      | none => rw [hfp] at hv; simp at hv
      | some p => simp
    have hcover : ∀ n ∈ ss.parameters.map Parameter.name, n ∈ vals.map Prod.fst := by
      refine nodup_subset_cover hks hns ?_ ?_
      · rw [List.length_map, List.length_map, hlen]
      · intro k hk
        obtain ⟨kv, hkv, rfl⟩ := List.mem_map.mp hk
        exact (findParam_isSome_iff _ _).mp (hknown kv hkv)
    refine ⟨?_, hknown, ?_⟩
    · intro p hp
      have hsome : (alookup vals p.name).isSome := by
        rw [alookup_isSome_iff]
        exact hcover p.name (List.mem_map.mpr ⟨p, hp, rfl⟩)
      obtain ⟨v, hv⟩ := Option.isSome_iff_exists.mp hsome
      refine ⟨v, hv, ?_⟩
      have hmem := alookup_eq_some_mem hv
      have hval := hall (p.name, v) hmem
      rw [findParam_of_mem hns hp] at hval
      exact hval
    · intro c hc
      have hv := hcons c hc
      simpa using hv
  · rintro ⟨hdecl, hknown, hcons⟩
    refine ⟨⟨?_, ?_⟩, ?_⟩
    · have := nodup_bisubset_length hks hns
        (fun k hk => by
          obtain ⟨kv, hkv, rfl⟩ := List.mem_map.mp hk
          exact (findParam_isSome_iff _ _).mp (hknown kv hkv))
        (fun n hn => by
          obtain ⟨p, hp, rfl⟩ := List.mem_map.mp hn
          obtain ⟨v, hv, _⟩ := hdecl p hp
          exact (alookup_isSome_iff vals p.name).mp (by simp [hv]))
      rw [List.length_map, List.length_map] at this
      exact this
    · intro kv hkv
      obtain ⟨p, hfp⟩ := Option.isSome_iff_exists.mp (hknown kv hkv)
      obtain ⟨hpmem, hpname⟩ := findParam_eq_some hfp
      obtain ⟨v, hv, hval⟩ := hdecl p hpmem
      have hkv2 : alookup vals kv.1 = some kv.2 := mem_alookup hks hkv
      rw [hpname] at hv
      rw [hv] at hkv2
      cases hkv2
      rw [hfp]
      exact hval
    · intro c hc
      simp [hcons c hc]

theorem check_types_iff (ss : SearchSpace) (vals : Pmap) :
    ss.check_types vals = true ↔ typesSpec ss vals := by
  unfold SearchSpace.check_types typesSpec
  rw [List.all_eq_true]
  constructor
  · intro hall kv hkv
    have hv := hall kv hkv
    cases hfp : findParam ss.parameters kv.1 with
    | none => simp [hfp] at hv
    | some p =>
        simp only [hfp] at hv
        exact ⟨p, rfl, hv⟩
  · intro hspec kv hkv
    obtain ⟨p, hfp, hok⟩ := hspec kv hkv
    simp only [hfp]
    exact hok

theorem check_membership_raising_ok_iff (ss : SearchSpace) (vals : Pmap) :
    ss.check_membership_raising vals = Except.ok () ↔
      ((∀ p ∈ ss.parameters, (alookup vals p.name).isSome) ∧
       (∀ kv ∈ vals, (findParam ss.parameters kv.1).isSome) ∧
       (∀ kv ∈ vals, ∀ p, findParam ss.parameters kv.1 = some p →
         p.validate kv.2 = true) ∧
       (∀ c ∈ ss.parameter_constraints, c.check vals = some true)) := by
  unfold SearchSpace.check_membership_raising
  cases h1 : ss.parameters.find? (fun p => (alookup vals p.name).isNone) with
  | some p =>
      simp only [h1]
      constructor
      · intro h; exact Except.noConfusion h
      · rintro ⟨hmiss, _, _, _⟩
        exfalso
        have hpred := List.find?_some h1
        have hmem := List.mem_of_find?_eq_some h1
        have hsome := hmiss p hmem
        rw [Option.isNone_iff_eq_none.mp hpred] at hsome
        simp at hsome
  | none =>
      have h1n := List.find?_eq_none.mp h1
      cases h2 : vals.find? (fun kv => (findParam ss.parameters kv.1).isNone) with
      | some kv =>
          simp only [h2]
          constructor
          · intro h; exact Except.noConfusion h
          · rintro ⟨_, hknown, _, _⟩
            exfalso
            have hpred := List.find?_some h2
            have hmem := List.mem_of_find?_eq_some h2
            have hsome := hknown kv hmem
            rw [Option.isNone_iff_eq_none.mp hpred] at hsome
            simp at hsome
      | none =>
          have h2n := List.find?_eq_none.mp h2
          cases h3 : vals.find? (fun kv =>
              match findParam ss.parameters kv.1 with
              | some p => !p.validate kv.2
              | none => false) with
          | some kv =>
              simp only [h3]
              constructor
              · intro h; exact Except.noConfusion h
              · rintro ⟨_, _, hval, _⟩
                exfalso
                have hpred := List.find?_some h3
                have hmem := List.mem_of_find?_eq_some h3
                cases hfp : findParam ss.parameters kv.1 with
                | none => simp [hfp] at hpred
                | some p =>
                    simp only [hfp, Bool.not_eq_true'] at hpred
                    rw [hval kv hmem p hfp] at hpred
                    cases hpred
          | none =>
              have h3n := List.find?_eq_none.mp h3
              cases h4 : ss.parameter_constraints.find? (fun c =>
                  !(c.check vals = some true)) with
              | some c =>
                  simp only [h4]
                  constructor
                  · intro h; exact Except.noConfusion h
                  · rintro ⟨_, _, _, hcons⟩
                    exfalso
                    have hpred := List.find?_some h4
                    have hmem := List.mem_of_find?_eq_some h4
                    rw [hcons c hmem] at hpred
                    simp at hpred
              | none =>
                  have h4n := List.find?_eq_none.mp h4
                  simp only [h4]
                  constructor
                  · intro _
                    refine ⟨?_, ?_, ?_, ?_⟩
                    · intro p hp
                      have := h1n p hp
                      cases ha : alookup vals p.name with
                      | none => rw [ha] at this; simp at this
                      | some v => simp
                    · intro kv hkv
                      have := h2n kv hkv
                      cases hfp : findParam ss.parameters kv.1 with
                      | none => rw [hfp] at this; simp at this
                      | some p => simp
                    · intro kv hkv p hfp
                      have := h3n kv hkv
                      simp only [hfp, Bool.not_eq_true'] at this
                      simpa using this
                    · intro c hc
                      have := h4n c hc
                      simpa using this
                  · intro _; trivial

theorem check_types_raising_ok_iff (ss : SearchSpace) (vals : Pmap) :
    ss.check_types_raising vals = Except.ok () ↔
      ((∀ kv ∈ vals, (findParam ss.parameters kv.1).isSome) ∧
       (∀ kv ∈ vals, ∀ p, findParam ss.parameters kv.1 = some p →
         typeOk p.ptype kv.2 = true)) := by
  unfold SearchSpace.check_types_raising
  cases h1 : vals.find? (fun kv => (findParam ss.parameters kv.1).isNone) with
  | some kv =>
      simp only [h1]
      constructor
      · intro h; exact Except.noConfusion h
      · rintro ⟨hknown, _⟩
        exfalso
        have hpred := List.find?_some h1
        have hmem := List.mem_of_find?_eq_some h1
        have hsome := hknown kv hmem
        rw [Option.isNone_iff_eq_none.mp hpred] at hsome
        simp at hsome
  | none =>
      have h1n := List.find?_eq_none.mp h1
      cases h2 : vals.find? (fun kv =>
          match findParam ss.parameters kv.1 with
          | some p => !typeOk p.ptype kv.2
          | none => false) with
      | some kv =>
          simp only [h2]
          constructor
          · intro h; exact Except.noConfusion h
          · rintro ⟨_, htype⟩
            exfalso
            have hpred := List.find?_some h2
            have hmem := List.mem_of_find?_eq_some h2
            cases hfp : findParam ss.parameters kv.1 with
            | none => simp [hfp] at hpred
            | some p =>
                simp only [hfp, Bool.not_eq_true'] at hpred
                rw [htype kv hmem p hfp] at hpred
                cases hpred
      | none =>
          have h2n := List.find?_eq_none.mp h2
          simp only [h2]
          constructor
          · intro _
            refine ⟨?_, ?_⟩
            · intro kv hkv
              have := h1n kv hkv
              cases hfp : findParam ss.parameters kv.1 with
              | none => rw [hfp] at this; simp at this
              | some p => simp
            · intro kv hkv p hfp
              have := h2n kv hkv
              simp only [hfp, Bool.not_eq_true'] at this
              simpa using this
          · intro _; trivial

theorem membership_components_iff (ss : SearchSpace) (vals : Pmap)
    (hks : (vals.map Prod.fst).Nodup)
    (hns : (ss.parameters.map Parameter.name).Nodup) :
    ((∀ p ∈ ss.parameters, (alookup vals p.name).isSome) ∧
     (∀ kv ∈ vals, (findParam ss.parameters kv.1).isSome) ∧
     (∀ kv ∈ vals, ∀ p, findParam ss.parameters kv.1 = some p →
       p.validate kv.2 = true) ∧
     (∀ c ∈ ss.parameter_constraints, c.check vals = some true)) ↔
      membershipSpec ss vals := by
  unfold membershipSpec
  constructor
  · rintro ⟨hmiss, hknown, hval, hcons⟩
    refine ⟨?_, hknown, hcons⟩
    intro p hp
    obtain ⟨v, hv⟩ := Option.isSome_iff_exists.mp (hmiss p hp)
    refine ⟨v, hv, ?_⟩
    exact hval (p.name, v) (alookup_eq_some_mem hv) p (findParam_of_mem hns hp)
  · rintro ⟨hdecl, hknown, hcons⟩
    refine ⟨?_, hknown, ?_, hcons⟩
    · intro p hp
      obtain ⟨v, hv, _⟩ := hdecl p hp
      simp [hv]
    · intro kv hkv p hfp
      obtain ⟨hpmem, hpname⟩ := findParam_eq_some hfp
      obtain ⟨v, hv, hval⟩ := hdecl p hpmem
      have hkv2 : alookup vals kv.1 = some kv.2 := mem_alookup hks hkv
      rw [hpname, hkv2] at hv
      cases hv
      exact hval

theorem types_components_iff (ss : SearchSpace) (vals : Pmap) :
    ((∀ kv ∈ vals, (findParam ss.parameters kv.1).isSome) ∧
     (∀ kv ∈ vals, ∀ p, findParam ss.parameters kv.1 = some p →
       typeOk p.ptype kv.2 = true)) ↔ typesSpec ss vals := by
  unfold typesSpec
  constructor
  · rintro ⟨hknown, htype⟩
    intro kv hkv
    obtain ⟨p, hfp⟩ := Option.isSome_iff_exists.mp (hknown kv hkv)
    exact ⟨p, hfp, htype kv hkv p hfp⟩
  · intro hspec
    refine ⟨?_, ?_⟩
    · intro kv hkv
      obtain ⟨p, hfp, _⟩ := hspec kv hkv
      simp [hfp]
    · intro kv hkv p hfp
      obtain ⟨p2, hfp2, hok⟩ := hspec kv hkv
      rw [hfp] at hfp2
      cases hfp2
      exact hok

theorem construct_err_of_bad_constraint {ps : List Parameter}
    {cs : List ParameterConstraint} {c : ParameterConstraint} (hc : c ∈ cs)
    (hbad : validConstraint ps c = false) :
    isErr (SearchSpace.construct ps cs) = true := by
  have hall : cs.all (validConstraint ps) = false := by
    cases hv : cs.all (validConstraint ps) with
    | false => rfl
    | true =>
        rw [List.all_eq_true] at hv
        rw [hv c hc] at hbad
        cases hbad
  unfold SearchSpace.construct
  by_cases hnd : (ps.map Parameter.name).Nodup
  · simp [hnd, hall, isErr]
  · simp [hnd, isErr]

theorem alookup_const_null (ps : List Parameter) {n : String}
    (hn : n ∈ ps.map Parameter.name) :
    alookup (ps.map fun p => (p.name, PValue.null)) n = some PValue.null := by
  induction ps with
  | nil => simp at hn
  | cons q rest ih =>
      by_cases hq : q.name = n
      · simp [alookup, hq]
      · simp only [List.map_cons, List.mem_cons] at hn
        rcases hn with h1 | h2
        · exact absurd h1.symm hq
        · simp [alookup, hq, ih h2]

/-- The two-root parameter list of the validation test: both `model` and
`model_2` are root candidates. -/
def case2Params : List Parameter :=
  [modelParam, model2Param, lrParam, l2Param, nbrParam]

/-- The parameter list of the validation test in which the declared dependent
`l2_reg_weight` has no corresponding parameter. -/
def case1Params : List Parameter := [modelParam, lrParam, nbrParam]

/-- The boolean root of the overlapping-branches validation test, activating
both `model` and `model_2` (whose subtrees share parameters). -/
def rootBoolParam : Parameter :=
  choiceParamDeps "root" ParameterType.BOOL [PValue.bool true, PValue.bool false]
    [(PValue.bool true, ["model", "model_2"])]

/-- The parameter list of the overlapping-branches validation test. -/
def case3Params : List Parameter :=
  [rootBoolParam, modelParam, model2Param, lrParam, l2Param, nbrParam]

/-- Claim C1: for every flat parameterization consistent with the dependency
tree of a hierarchical search space (the cast walk succeeds on it), applying
`cast_observation_features` and then `flatten_observation_features` yields
observation features whose parameter mapping equals the original mapping
exactly. -/
theorem C1_flatten_cast_roundtrip (hss : HierarchicalSearchSpace) (x : Pmap)
    (res : ObservationFeatures)
    (h : cast_observation_features hss (ObservationFeatures.from_arm (Arm.mk x)) =
      some res) :
    (flatten_observation_features res).parameters = x := by
  unfold cast_observation_features at h
  cases hc : castParameterization hss
      (ObservationFeatures.from_arm (Arm.mk x)).parameters with
  | none => simp [hc] at h
  | some y =>
      simp only [hc, Option.some_inj] at h
      subst h
      simp [flatten_observation_features, ObservationFeatures.from_arm, stashFull,
        alookup]

/-- Witness for C1 at the hierarchical test space and its Linear-branch arm. -/
theorem C1_witness :
    (flatten_observation_features (ObservationFeatures.mk arm1castP
      (some [(fullParameterizationKey, arm1flatP)]) none)).parameters = arm1flatP :=
  C1_flatten_cast_roundtrip hss1 arm1flatP
    (ObservationFeatures.mk arm1castP
      (some [(fullParameterizationKey, arm1flatP)]) none)
    (by decide)

/-- The cast observation features used to exhibit the behaviour of
`flatten_observation_features` on metadata carrying the reserved key. -/
def obsCast1 : ObservationFeatures :=
  ObservationFeatures.mk arm1castP (some [(fullParameterizationKey, arm1flatP)]) none

/-- Counterexample to claim C2 as stated: after flattening features whose
metadata carries the saved full parameterization, the reserved key is not
cleared — it is still present and still maps to the saved full mapping, as
the repository's own test asserts. -/
theorem C2_counterexample :
    alookup ((flatten_observation_features obsCast1).metadata.getD [])
        fullParameterizationKey = some arm1flatP ∧
      (flatten_observation_features obsCast1).metadata ≠ none := by
  constructor
  · decide
  · decide

/-- Claim C2 (amended): if the metadata carries a saved full parameterization
under the reserved key, `flatten_observation_features` returns features whose
parameters equal that saved mapping and whose metadata is retained unchanged
(the reserved key is kept, not cleared); if no such key is present, the
features pass through unchanged. -/
theorem C2_flatten_restores_full (obs : ObservationFeatures) :
    (obs.metadata = none → flatten_observation_features obs = obs) ∧
    (∀ m, obs.metadata = some m →
      alookup m fullParameterizationKey = none →
      flatten_observation_features obs = obs) ∧
    (∀ m full, obs.metadata = some m →
      alookup m fullParameterizationKey = some full →
      (flatten_observation_features obs).parameters = full ∧
      (flatten_observation_features obs).metadata = obs.metadata ∧
      (flatten_observation_features obs).trial_index = obs.trial_index) := by
  refine ⟨?_, ?_, ?_⟩
  · intro hm
    unfold flatten_observation_features
    simp [hm]
  · intro m hm hk
    unfold flatten_observation_features
    simp [hm, hk]
  · intro m full hm hk
    unfold flatten_observation_features
    simp [hm, hk]

/-- Witness for the amended C2 at concrete cast features. -/
theorem C2_witness :
    (flatten_observation_features obsCast1).parameters = arm1flatP ∧
    (flatten_observation_features obsCast1).metadata = obsCast1.metadata :=
  ⟨((C2_flatten_restores_full obsCast1).2.2 [(fullParameterizationKey, arm1flatP)]
      arm1flatP rfl (by decide)).1,
   ((C2_flatten_restores_full obsCast1).2.2 [(fullParameterizationKey, arm1flatP)]
      arm1flatP rfl (by decide)).2.1⟩

/-- Claim C3: whenever the cast of the parameterization succeeds,
`cast_observation_features` returns features whose parameters are the cast
subset; when the incoming metadata does not hold the reserved key, the
original full mapping is stored under it, and when the key is already held,
the existing metadata (including the saved full parameterization) is kept
untouched. -/
theorem C3_cast_stashes_full (hss : HierarchicalSearchSpace)
    (obs : ObservationFeatures) (y : Pmap)
    (h : castParameterization hss obs.parameters = some y) :
    ∃ res, cast_observation_features hss obs = some res ∧
      res.parameters = y ∧
      (alookup (obs.metadata.getD []) fullParameterizationKey = none →
        alookup (res.metadata.getD []) fullParameterizationKey =
          some obs.parameters) ∧
      (∀ v, alookup (obs.metadata.getD []) fullParameterizationKey = some v →
        res.metadata = obs.metadata ∧
        alookup (res.metadata.getD []) fullParameterizationKey = some v) := by
  refine ⟨ObservationFeatures.mk y
      (some (stashFull (obs.metadata.getD []) obs.parameters)) obs.trial_index,
      ?_, rfl, ?_, ?_⟩
  · unfold cast_observation_features
    simp only [h]
  · intro hk
    simp only [Option.getD_some]
    unfold stashFull
    simp only [hk]
    simp [alookup]
  · intro v hk
    cases hm : obs.metadata with
    | none =>
        rw [hm] at hk
        simp [alookup] at hk
    | some m =>
        rw [hm] at hk
        simp only [Option.getD_some] at hk
        simp only [Option.getD_some]
        unfold stashFull
        simp only [hk]
        exact ⟨trivial, trivial⟩

/-- Witness for C3 at the hierarchical test space and its Linear-branch arm. -/
theorem C3_witness :
    ∃ res, cast_observation_features hss1
        (ObservationFeatures.mk arm1flatP none none) = some res ∧
      res.parameters = arm1castP := by
  obtain ⟨res, h1, h2, _, _⟩ := C3_cast_stashes_full hss1
    (ObservationFeatures.mk arm1flatP none none) arm1castP (by decide)
  exact ⟨res, h1, h2⟩

/-- Claim C4: on the concrete hierarchical space (root `model` with
`Linear -> [learning_rate, l2_reg_weight]` and `XGBoost -> [num_boost_rounds]`),
the Linear-branch flat arm casts to exactly its active subtree, the arm
missing `learning_rate` under the Linear branch raises the runtime casting
error, and, in general, a successful walk certifies that every name it
determines to be active carries a value in the arm (so an arm lacking such a
value can never cast successfully). -/
theorem C4_concrete_cast (hss : HierarchicalSearchSpace) :
    castParameterization hss1 arm1flatP = some arm1castP ∧
    castParameterization hss1 armMissingP = none ∧
    (∀ (params : Pmap) (fuel : Nat) (ns acts : List String),
      findActive fuel hss.parameters params ns = some acts →
      ∀ n ∈ acts, (alookup params n).isSome) := by
  refine ⟨by decide, by decide, ?_⟩
  intro params fuel ns acts h n hn
  exact findActive_mem_isSome fuel ns hss.parameters params acts h n hn

/-- Witness for C4: the successful Linear-branch walk certifies the presence
of `learning_rate` in the flat arm. -/
theorem C4_witness :
    (alookup arm1flatP "learning_rate").isSome = true :=
  (C4_concrete_cast hss1).2.2 arm1flatP (hssFuel hss1.parameters) ["model"]
    ["model", "learning_rate", "l2_reg_weight"] (by decide) "learning_rate"
    (by decide)

/-- Claim C5: `cast_arm` replaces the value of every name present in both
the arm and the space with that parameter's canonical cast, passes names
unknown to the space through unchanged, and is idempotent; likewise the
hierarchical `_cast_arm` is a fixed point on already-cast parameterizations.
(The operation returns a new arm by construction in this purely functional
model, so non-mutation of the input is inherent.) -/
theorem C5_cast_arm_idempotent (ss : SearchSpace) (arm : Arm) :
    ss.cast_arm (ss.cast_arm arm) = ss.cast_arm arm ∧
    (∀ k, findParam ss.parameters k = none →
      alookup (ss.cast_arm arm).parameters k = alookup arm.parameters k) ∧
    (∀ k p v, findParam ss.parameters k = some p →
      alookup arm.parameters k = some v →
      alookup (ss.cast_arm arm).parameters k = some (p.cast v)) ∧
    (∀ (hss : HierarchicalSearchSpace) (params r : Pmap),
      castParameterization hss params = some r →
      castParameterization hss r = some r) := by
  refine ⟨?_, ?_, ?_, ?_⟩
  · unfold SearchSpace.cast_arm
    simp only [List.map_map]
    congr 1
    apply List.map_congr_left
    intro kv _
    simp [Function.comp, castValue_idem]
  · intro k hk
    rw [cast_arm_lookup]
    cases ha : alookup arm.parameters k <;> simp [castValue, hk]
  · intro k p v hp hv
    rw [cast_arm_lookup, hv]
    simp [castValue, hp]
  · intro hss params r h
    exact castParameterization_fixed hss params r h

/-- The arm of the cast test: a float-valued `b` to be cast to int, plus an
unknown name `q` to be passed through. -/
def armCast1 : Arm :=
  Arm.mk [("a", PValue.float 1), ("b", PValue.float 5), ("q", PValue.int 40)]

/-- Witness for C5 at the flat test space, plus the hierarchical fixed point
at the already-cast Linear-branch arm. -/
theorem C5_witness :
    ss2.cast_arm (ss2.cast_arm armCast1) = ss2.cast_arm armCast1 ∧
    alookup (ss2.cast_arm armCast1).parameters "q" =
      alookup armCast1.parameters "q" ∧
    alookup (ss2.cast_arm armCast1).parameters "b" =
      some (paramB.cast (PValue.float 5)) ∧
    castParameterization hss1 arm1castP = some arm1castP :=
  ⟨(C5_cast_arm_idempotent ss2 armCast1).1,
   (C5_cast_arm_idempotent ss2 armCast1).2.1 "q" (by decide),
   (C5_cast_arm_idempotent ss2 armCast1).2.2.1 "b" paramB (PValue.float 5)
     (by decide) (by decide),
   (C5_cast_arm_idempotent ss2 armCast1).2.2.2 hss1 arm1flatP arm1castP (by decide)⟩

/-- Claim C6: on mappings without duplicate keys (as all Python dicts are),
`check_membership` is true exactly when every declared parameter is present
with a valid value, no unknown names are present, and every constraint's
weighted sum respects its bound; `check_types` checks only per-value type
(unknown keys violating) and ignores the constraints entirely; and each
raising mode succeeds exactly when the corresponding boolean mode returns
true. -/
theorem C6_checks (ss : SearchSpace) (vals : Pmap)
    (hks : (vals.map Prod.fst).Nodup)
    (hns : (ss.parameters.map Parameter.name).Nodup) :
    (ss.check_membership vals = true ↔ membershipSpec ss vals) ∧
    (ss.check_types vals = true ↔ typesSpec ss vals) ∧
    (∀ cs2, SearchSpace.check_types (SearchSpace.mk ss.parameters cs2) vals =
      ss.check_types vals) ∧
    (ss.check_membership_raising vals = Except.ok () ↔
      ss.check_membership vals = true) ∧
    (ss.check_types_raising vals = Except.ok () ↔ ss.check_types vals = true) := by
  refine ⟨check_membership_iff ss vals hks hns, check_types_iff ss vals,
    fun cs2 => rfl, ?_, ?_⟩
  · exact (check_membership_raising_ok_iff ss vals).trans
      ((membership_components_iff ss vals hks hns).trans
        (check_membership_iff ss vals hks hns).symm)
  · exact (check_types_raising_ok_iff ss vals).trans
      ((types_components_iff ss vals).trans (check_types_iff ss vals).symm)

/-- Witness for C6 at the constrained test space and the in-design
assignment of the membership test. -/
theorem C6_witness :
    (ss2.check_membership pDictGood = true ↔ membershipSpec ss2 pDictGood) ∧
    (ss2.check_types pDictGood = true ↔ typesSpec ss2 pDictGood) ∧
    (∀ cs2, SearchSpace.check_types (SearchSpace.mk ss2.parameters cs2) pDictGood =
      ss2.check_types pDictGood) ∧
    (ss2.check_membership_raising pDictGood = Except.ok () ↔
      ss2.check_membership pDictGood = true) ∧
    (ss2.check_types_raising pDictGood = Except.ok () ↔
      ss2.check_types pDictGood = true) :=
  C6_checks ss2 pDictGood (by decide) (by decide)

/-- Claim C7: search-space construction fails on a duplicate parameter name
and on any constraint referencing a parameter that is absent, non-numeric,
log-scale or a choice parameter, or carrying a parameter object not
structurally equal to the stored one; `add_parameter` fails on a duplicate
name; `update_parameter` fails on an absent name or a changed parameter
type. -/
theorem C7_construction_errors :
    (∀ ps cs, ¬ (ps.map Parameter.name).Nodup →
      isErr (SearchSpace.construct ps cs) = true) ∧
    (∀ ps cs c n q, c ∈ cs → (n, q) ∈ c.constraint_dict →
      (findParam ps n = none ∨
        ∃ p, findParam ps n = some p ∧
          (p.isNumeric = false ∨ p.log_scale = true ∨ p.kind = ParamKind.choice)) →
      isErr (SearchSpace.construct ps cs) = true) ∧
    (∀ ps cs c q, c ∈ cs → q ∈ c.cparams → ¬ (findParam ps q.name = some q) →
      isErr (SearchSpace.construct ps cs) = true) ∧
    (∀ (ss : SearchSpace) (p : Parameter), (findParam ss.parameters p.name).isSome →
      isErr (ss.add_parameter p) = true) ∧
    (∀ (ss : SearchSpace) (p : Parameter), findParam ss.parameters p.name = none →
      isErr (ss.update_parameter p) = true) ∧
    (∀ (ss : SearchSpace) (p stored : Parameter),
      findParam ss.parameters p.name = some stored →
      stored.ptype ≠ p.ptype → isErr (ss.update_parameter p) = true) := by
  refine ⟨?_, ?_, ?_, ?_, ?_, ?_⟩
  · intro ps cs hnd
    unfold SearchSpace.construct
    simp [hnd, isErr]
  · intro ps cs c n q hc hdict hbad
    have hvp : validParamForConstraint ps n = false := by
      unfold validParamForConstraint
      rcases hbad with hnone | ⟨p, hp, hcase⟩
      · simp [hnone]
      · simp only [hp]
        rcases hcase with h1 | h2 | h3
        · simp [h1]
        · simp [h2]
        · simp [h3]
    have hA : c.constraint_dict.all (fun kc => validParamForConstraint ps kc.1) =
        false := by
      cases hx : c.constraint_dict.all (fun kc => validParamForConstraint ps kc.1) with
      | false => rfl
      | true =>
          rw [List.all_eq_true] at hx
          have hw := hx (n, q) hdict
          rw [hvp] at hw
          cases hw
    exact construct_err_of_bad_constraint hc (by simp [validConstraint, hA])
  · intro ps cs c q hc hq hne
    have hB : c.cparams.all (fun r => findParam ps r.name = some r) = false := by
      cases hx : c.cparams.all (fun r => findParam ps r.name = some r) with
      | false => rfl
      | true =>
          rw [List.all_eq_true] at hx
          have hw := hx q hq
          rw [decide_eq_true_eq] at hw
          exact absurd hw hne
    exact construct_err_of_bad_constraint hc (by simp [validConstraint, hB])
  · intro ss p hsome
    unfold SearchSpace.add_parameter
    simp [hsome, isErr]
  · intro ss p hnone
    unfold SearchSpace.update_parameter
    simp [hnone, isErr]
  · intro ss p stored hp hne
    unfold SearchSpace.update_parameter
    simp [hp, hne, isErr]

/-- A parameter list with a duplicate name, used to witness C7. -/
def dupParams : List Parameter := baseParams ++ [paramA]

/-- A vanilla constraint referencing the undeclared name `g`. -/
def constraintOnG : ParameterConstraint := ParameterConstraint.mk [("g", 1)] 0 []

/-- An order constraint carrying a parameter object (`a` with a widened
range) that is not structurally equal to the stored `a`. -/
def constraintWrongA : ParameterConstraint :=
  ParameterConstraint.mk [("a", 1), ("b", -1)] 0
    [rangeParam "a" ParameterType.FLOAT (qq 1 2) 10, paramB]

/-- Witness for C7 at the concrete failing constructions of the test suite. -/
theorem C7_witness :
    isErr (SearchSpace.construct dupParams []) = true ∧
    isErr (SearchSpace.construct baseParams [constraintOnG]) = true ∧
    isErr (SearchSpace.construct baseParams [constraintWrongA]) = true ∧
    isErr (ss1.add_parameter
      (rangeParam "b" ParameterType.FLOAT 0 1)) = true ∧
    isErr (ss1.update_parameter
      (rangeParam "g" ParameterType.FLOAT 0 1)) = true ∧
    isErr (ss1.update_parameter
      (rangeParam "b" ParameterType.FLOAT 0 1)) = true :=
  ⟨C7_construction_errors.1 dupParams [] (by decide),
   C7_construction_errors.2.1 baseParams [constraintOnG] constraintOnG "g" 1
     (by decide) (by decide) (Or.inl (by decide)),
   C7_construction_errors.2.2.1 baseParams [constraintWrongA] constraintWrongA
     (rangeParam "a" ParameterType.FLOAT (qq 1 2) 10) (by decide) (by decide)
     (by decide),
   C7_construction_errors.2.2.2.1 ss1 (rangeParam "b" ParameterType.FLOAT 0 1)
     (by decide),
   C7_construction_errors.2.2.2.2.1 ss1 (rangeParam "g" ParameterType.FLOAT 0 1)
     (by decide),
   C7_construction_errors.2.2.2.2.2 ss1 (rangeParam "b" ParameterType.FLOAT 0 1)
     paramB (by decide) (by decide)⟩

/-- Claim C8: hierarchical construction finds exactly one root (the unique
parameter listed in no dependents) whenever it succeeds; two independent root
candidates fail with the could-not-find-root error; a declared dependent with
no corresponding parameter fails naming that parameter; and two branches
containing the same parameter fail with the shared-parameters error. -/
theorem C8_hss_construction :
    (∀ ps cs h, HierarchicalSearchSpace.construct ps cs = Except.ok h →
      rootCandidates ps = [h.root] ∧ h.parameters = ps) ∧
    (∀ ps cs r1 r2 rs, rootCandidates ps = r1 :: r2 :: rs →
      HierarchicalSearchSpace.construct ps cs =
        Except.error HSSError.couldNotFindRoot) ∧
    (HierarchicalSearchSpace.construct case1Params [] =
      Except.error (HSSError.notPartOfSearchSpace "l2_reg_weight")) ∧
    (HierarchicalSearchSpace.construct case2Params [] =
      Except.error HSSError.couldNotFindRoot) ∧
    (HierarchicalSearchSpace.construct case3Params [] =
      Except.error HSSError.sharedParameters) := by
  refine ⟨?_, ?_, rfl, rfl, rfl⟩
  · intro ps cs h hok
    unfold HierarchicalSearchSpace.construct at hok
    cases hr : rootCandidates ps with
    | nil =>
        rw [hr] at hok
        exact Except.noConfusion hok
    | cons r tail =>
        cases tail with
        | nil =>
            rw [hr] at hok
            cases hcs : checkSubtrees (hssFuel ps) ps [r] with
            | error e => simp [hcs] at hok
            | ok visited =>
                simp only [hcs] at hok
                by_cases hcov : ((ps.map Parameter.name).all
                    (fun n => decide (n ∈ visited))) = true
                · simp only [hcov, if_true] at hok
                  injection hok with h2
                  subst h2
                  exact ⟨rfl, rfl⟩
                · simp [hcov] at hok
        | cons r2 tail2 =>
            rw [hr] at hok
            exact Except.noConfusion hok
  · intro ps cs r1 r2 rs h
    unfold HierarchicalSearchSpace.construct
    rw [h]

/-- Witness for C8: the well-formed hierarchical test space construction
succeeds with root `model`, and the two-root list fails. -/
theorem C8_witness :
    (rootCandidates hss1Params = [hss1.root] ∧ hss1.parameters = hss1Params) ∧
    HierarchicalSearchSpace.construct case2Params [] =
      Except.error HSSError.couldNotFindRoot :=
  ⟨C8_hss_construction.1 hss1Params [] hss1 rfl,
   C8_hss_construction.2.1 case2Params [] "model" "model_2" [] rfl⟩

/-- Claim C9: `out_of_design_arm` maps every declared parameter name to the
explicit unset sentinel, and the result does not depend on the constraints
the space carries. -/
theorem C9_out_of_design (ps : List Parameter) (cs cs2 : List ParameterConstraint) :
    (∀ p ∈ ps, alookup
      (SearchSpace.out_of_design_arm (SearchSpace.mk ps cs)).parameters p.name =
        some PValue.null) ∧
    SearchSpace.out_of_design_arm (SearchSpace.mk ps cs) =
      SearchSpace.out_of_design_arm (SearchSpace.mk ps cs2) := by
  refine ⟨?_, rfl⟩
  intro p hp
  unfold SearchSpace.out_of_design_arm
  exact alookup_const_null ps (List.mem_map.mpr ⟨p, hp, rfl⟩)

/-- Witness for C9 at the flat test spaces with and without constraints. -/
theorem C9_witness :
    alookup (SearchSpace.out_of_design_arm
      (SearchSpace.mk baseParams [])).parameters paramA.name = some PValue.null ∧
    SearchSpace.out_of_design_arm (SearchSpace.mk baseParams []) =
      SearchSpace.out_of_design_arm (SearchSpace.mk baseParams [orderConstraintAB]) :=
  ⟨(C9_out_of_design baseParams [] [orderConstraintAB]).1 paramA (by decide),
   (C9_out_of_design baseParams [] [orderConstraintAB]).2⟩

/-- Claim C10: `cast_observation_features` changes only the parameters and
the metadata: the remaining payload (the trial index) is preserved, and for
features built from an arm, the result with its metadata emptied equals the
observation features built directly from the cast arm. -/
theorem C10_cast_frame (hss : HierarchicalSearchSpace)
    (obs res : ObservationFeatures)
    (h : cast_observation_features hss obs = some res) :
    res.trial_index = obs.trial_index ∧
    (∀ arm : Arm, obs = ObservationFeatures.from_arm arm →
      ObservationFeatures.mk res.parameters none res.trial_index =
        ObservationFeatures.from_arm (Arm.mk res.parameters)) := by
  unfold cast_observation_features at h
  cases hc : castParameterization hss obs.parameters with
  | none => simp [hc] at h
  | some y =>
      simp only [hc, Option.some_inj] at h
      subst h
      refine ⟨rfl, ?_⟩
      intro arm harm
      have hti : obs.trial_index = none := by rw [harm]; rfl
      simp [ObservationFeatures.from_arm, hti]

/-- Witness for C10 at the hierarchical test space and its Linear-branch
features. -/
theorem C10_witness :
    (ObservationFeatures.mk arm1castP
      (some [(fullParameterizationKey, arm1flatP)]) none).trial_index =
      (ObservationFeatures.mk arm1flatP none none).trial_index ∧
    ObservationFeatures.mk arm1castP none none =
      ObservationFeatures.from_arm (Arm.mk arm1castP) := by
  have h := C10_cast_frame hss1 (ObservationFeatures.mk arm1flatP none none)
    (ObservationFeatures.mk arm1castP
      (some [(fullParameterizationKey, arm1flatP)]) none) (by decide)
  exact ⟨h.1, h.2 (Arm.mk arm1flatP) rfl⟩
